import Mathlib

/-!
Verification development for the NodeBase workflow-execution core.

The definitions below are a shallow embedding of the execution engine:

* `topologicalSort` (src/inngest/utils.ts) together with the algorithm of the
  `toposort` npm library (marcelklehr/toposort v2.0.2) that it delegates to;
* the node executors `manualTriggerExecutor`, `googleFormTriggerExecutor`
  and `httpRequestExecutor`
  (src/features/triggers/components/manual-trigger/executor.ts,
   src/features/triggers/components/google-form-trigger (executor),
   src/features/executions/components/http-request/executor.ts);
* the executor registry `getExecutor` (executor-registry.ts) and the
  orchestrator `executeWorkflow` (src/inngest/functions.ts).

Effectful JavaScript operations (Handlebars template resolution, JSON.parse,
the ky HTTP client) are modelled by an explicit environment `JsEnv` of
oracle functions; each executor returns, besides its result, the ordered
trace of realtime status events it published and of HTTP requests it issued,
so that temporal claims ("before any network call", "never invokes an
executor") become statements about those traces.

JavaScript falsiness of the optional string configuration fields is modelled
by the empty string: the source only ever distinguishes `undefined` from a
present string through falsiness checks (`!data.endpoint`,
`data.body || "\x7b\x7d"`), under which `undefined` and `""` behave
identically.
-/

/-- JSON-like values: the payloads stored in a workflow context. -/
inductive JValue where
  | null : JValue
  | bool : Bool → JValue
  | num : Int → JValue
  | str : String → JValue
  | arr : List JValue → JValue
  | obj : List (String × JValue) → JValue

/-- A workflow context: a JavaScript object used as an open key-value map,
modelled as an association list in key-insertion order. -/
abbrev Ctx := List (String × JValue)

/-- First-match association lookup, the semantics of reading a property of a
JavaScript object. -/
def jsGet (ctx : Ctx) (k : String) : Option JValue :=
  match ctx with
  | [] => none
  | (k2, v) :: rest => if k2 = k then some v else jsGet rest k

/-- The JavaScript spread update `\x7b...ctx, [k]: v\x7d`: if `k` is already a
key its value is replaced in place, otherwise `(k, v)` is appended. -/
def setKey (ctx : Ctx) (k : String) (v : JValue) : Ctx :=
  match ctx with
  | [] => [(k, v)]
  | (k2, v2) :: rest =>
      if k2 = k then (k2, v) :: rest else (k2, v2) :: setKey rest k v

/-- Node types of the Prisma `NodeType` enum. -/
inductive NodeType where
  | INITIAL : NodeType
  | MANUAL_TRIGGER : NodeType
  | HTTP_REQUEST : NodeType
  | GOOGLE_FORM_TRIGGER : NodeType
  | STRIPE_TRIGGER : NodeType
deriving DecidableEq, Repr

/-- Printable name of a node type (used in the registry error message). -/
def nodeTypeName : NodeType → String
  | .INITIAL => "INITIAL"
  | .MANUAL_TRIGGER => "MANUAL_TRIGGER"
  | .HTTP_REQUEST => "HTTP_REQUEST"
  | .GOOGLE_FORM_TRIGGER => "GOOGLE_FORM_TRIGGER"
  | .STRIPE_TRIGGER => "STRIPE_TRIGGER"

/-- The configuration record (`node.data`) a node carries. Only the
HTTP-request executor reads it; absent fields are the empty string
(JavaScript falsiness, see the module comment). -/
structure NodeData where
  endpoint : String
  variableName : String
  method : String
  body : String
deriving DecidableEq, Repr

/-- The all-absent configuration. -/
def NodeData.empty : NodeData := ⟨"", "", "", ""⟩

/-- A workflow node as loaded from the database. -/
structure Node where
  id : String
  type : NodeType
  data : NodeData
deriving DecidableEq, Repr

/-- A workflow connection: a directed dependency edge between two nodes. -/
structure Connection where
  fromNodeId : String
  toNodeId : String
deriving DecidableEq, Repr

/-- Errors raised by the execution core, separated into the two JavaScript
error classes the code distinguishes: Inngest's `NonRetriableError` and the
plain `Error` class (which the job runner treats as retriable). -/
inductive ExecError where
  | nonRetriable : String → ExecError
  | plain : String → ExecError
deriving DecidableEq, Repr

/-- A realtime status event published on a per-node-type channel. -/
structure StatusEvent where
  channel : String
  nodeId : String
  status : String
deriving DecidableEq, Repr

/-- Options of an outgoing HTTP request (the subset the executor sets):
the method, and for body-carrying methods the raw body string. -/
structure HttpOptions where
  method : String
  body : Option String
deriving DecidableEq, Repr

/-- A response delivered by the HTTP client: status code, status text, the
content-type header (empty string when absent) and the raw body text. -/
structure HttpResponse where
  status : Int
  statusText : String
  contentType : String
  bodyText : String

/-- Oracle environment for the JavaScript effects the executors perform:
Handlebars template resolution against a context, `JSON.parse`, and the ky
HTTP client (an `Except` result models a thrown error, carrying its
message). -/
structure JsEnv where
  tmpl : String → Ctx → Except String String
  parseJson : String → Except String JValue
  http : String → HttpOptions → Except String HttpResponse

/-- What a node executor is invoked with (the `data`, `nodeId` and `context`
fields of the parameter object; `step` and `publish` are captured by the
returned traces). -/
structure ExecInput where
  data : NodeData
  nodeId : String
  context : Ctx

/-- What running a node executor yields: its result (the updated context or
a thrown error), the status events it published in order, and the HTTP
requests it issued in order. -/
structure ExecResult where
  result : Except ExecError Ctx
  published : List StatusEvent
  httpCalls : List (String × HttpOptions)

/-- Occurrence of one character sequence inside another, by scanning every
position. -/
def containsSub (hay need : List Char) : Bool :=
  match hay with
  | [] => need.isEmpty
  | _ :: t => need.isPrefixOf hay || containsSub t need

/-- The JavaScript `String.prototype.includes` test. -/
def jsIncludes (s sub : String) : Bool :=
  containsSub s.data sub.data

/-- The JavaScript `String.prototype.toUpperCase`, character by
character (the method strings it is applied to are ASCII). -/
def jsToUpper (s : String) : String :=
  ⟨s.data.map Char.toUpper⟩

/-- Manual-trigger executor
(src/features/triggers/components/manual-trigger/executor.ts): publishes a
`loading` status, runs a step that returns the context unchanged, publishes
a `success` status, and returns the step result. -/
def manualTriggerExecutor (_env : JsEnv) (inp : ExecInput) : ExecResult :=
  ⟨.ok inp.context,
   [⟨"manual-trigger", inp.nodeId, "loading"⟩,
    ⟨"manual-trigger", inp.nodeId, "success"⟩],
   []⟩

/-- Google-Form-trigger executor (google-form-trigger executor source):
identical shape to the manual trigger, on its own channel. -/
def googleFormTriggerExecutor (_env : JsEnv) (inp : ExecInput) : ExecResult :=
  ⟨.ok inp.context,
   [⟨"google-form-trigger", inp.nodeId, "loading"⟩,
    ⟨"google-form-trigger", inp.nodeId, "success"⟩],
   []⟩

/-- The response payload the HTTP-request executor stores under the
configured variable name: an object with the single key `httpResponse`. -/
def mkHttpPayload (status : Int) (statusText : String) (data : JValue) : JValue :=
  .obj [("httpResponse",
          .obj [("status", .num status),
                ("statusText", .str statusText),
                ("data", data)])]

/-- The part of the HTTP-request executor that actually issues the request
and processes the response (the tail of the `step.run` body in
src/features/executions/components/http-request/executor.ts): records the
issued call, propagates a client error as a plain thrown error, parses the
response body as JSON when the content type includes `application/json`
(a parse failure there is the rejection of `response.json()`), and merges
the response payload into the context under `variableName`. -/
def httpCall (env : JsEnv) (inp : ExecInput) (endpoint : String)
    (options : HttpOptions) : ExecResult :=
  match env.http endpoint options with
  | .error msg => ⟨.error (.plain msg), [], [(endpoint, options)]⟩
  | .ok resp =>
      if jsIncludes resp.contentType "application/json" then
        match env.parseJson resp.bodyText with
        | .error msg => ⟨.error (.plain msg), [], [(endpoint, options)]⟩
        | .ok data =>
            ⟨.ok (setKey inp.context inp.data.variableName
                    (mkHttpPayload resp.status resp.statusText data)),
             [], [(endpoint, options)]⟩
      else
        ⟨.ok (setKey inp.context inp.data.variableName
                (mkHttpPayload resp.status resp.statusText (.str resp.bodyText))),
         [], [(endpoint, options)]⟩

/-- HTTP-request executor
(src/features/executions/components/http-request/executor.ts).
Validates `endpoint`, `variableName` and `method` in that order (each
missing field throws a `NonRetriableError` before the HTTP step); resolves
the endpoint template, wrapping any failure — including resolution to an
empty string — as a `NonRetriableError`; for POST/PUT/PATCH (after
`toUpperCase`) resolves the body template (default source `\x7b\x7d`; a
template error here is outside the try/catch and propagates as a plain
error) and validates it with `JSON.parse`, throwing a `NonRetriableError`
on invalid JSON; then issues the request.  The published trace is empty in
every branch: the source only carries TODO comments where status
publication would go. -/
def httpRequestExecutor (env : JsEnv) (inp : ExecInput) : ExecResult :=
  if inp.data.endpoint = "" then
    ⟨.error (.nonRetriable "HTTP Request node: No endpoint configured"), [], []⟩
  else if inp.data.variableName = "" then
    ⟨.error (.nonRetriable "HTTP Request node: No variable name configured"), [], []⟩
  else if inp.data.method = "" then
    ⟨.error (.nonRetriable "HTTP Request node: No method configured"), [], []⟩
  else
    match env.tmpl inp.data.endpoint inp.context with
    | .error msg =>
        ⟨.error (.nonRetriable
            ("HTTP Request node: Endpoint template error. " ++ msg)), [], []⟩
    | .ok endpoint =>
        if endpoint = "" then
          ⟨.error (.nonRetriable
              ("HTTP Request node: Endpoint template error. " ++
               "Endpoint template did not resolve to a valid string")), [], []⟩
        else
          if jsToUpper inp.data.method ∈ ["POST", "PUT", "PATCH"] then
            match env.tmpl (if inp.data.body = "" then "\x7b\x7d" else inp.data.body)
                inp.context with
            | .error msg => ⟨.error (.plain msg), [], []⟩
            | .ok resolved =>
                match env.parseJson resolved with
                | .error msg =>
                    ⟨.error (.nonRetriable
                        ("HTTP Request node: Invalid JSON in request body after template resolution. "
                          ++ msg)), [], []⟩
                | .ok _ =>
                    httpCall env inp endpoint ⟨inp.data.method, some resolved⟩
          else
            httpCall env inp endpoint ⟨inp.data.method, none⟩

/-- JavaScript `Set.prototype.add` on an insertion-ordered set represented
as a duplicate-free list: append the element unless already present. -/
def jsSetAdd (l : List String) (x : String) : List String :=
  if x ∈ l then l else l ++ [x]

/-- The JavaScript idiom `[...new Set(l)]`: deduplicate keeping the first
occurrence of each element, preserving order. -/
def dedupFirst (l : List String) : List String :=
  l.foldl jsSetAdd []

/-- An edge of the toposort library: a `[source, target]` tuple. -/
abbrev TsEdge := String × String

/-- The `uniqueNodes` helper of the toposort library: all edge endpoints in
first-occurrence order (for each edge, source then target). -/
def uniqueNodes (edges : List TsEdge) : List String :=
  dedupFirst (edges.foldr (fun e acc => e.1 :: e.2 :: acc) [])

/-- The `makeOutgoingEdges` helper of the toposort library, read back for
one source node: the targets of its edges in first-occurrence order. -/
def outgoingEdges (edges : List TsEdge) (n : String) : List String :=
  dedupFirst (edges.filterMap (fun e => if e.1 = n then some e.2 else none))

/-- Errors thrown by the toposort library: a cyclic dependency naming the
offending node, or an unknown node in the edge list.  `fuelOut` is an
artifact of the fuel-based encoding of the recursion and is proved
unreachable for the fuel `toposort` supplies. -/
inductive TsErr where
  | cyclic : String → TsErr
  | unknownNode : TsErr
  | fuelOut : TsErr
deriving DecidableEq, Repr

/-- Message of a toposort library error, as carried by the thrown
JavaScript `Error` (the `cyclic` message begins with the word `Cyclic`,
which is what the caller tests with `includes`). -/
def tsErrMessage : TsErr → String
  | .cyclic n => "Cyclic dependency, node was:" ++ n
  | .unknownNode => "Unknown node. There is an unknown node in the supplied edges."
  | .fuelOut => "fuel exhausted"

/-- The caller's test `e.message.includes(\x22Cyclic\x22)`: only the cyclic
error message contains that word. -/
def tsErrIsCyclic : TsErr → Bool
  | .cyclic _ => true
  | _ => false

/-- The mutable state of the toposort library's depth-first search: the
nodes marked visited, and the sorted output built right-to-left (each
finished node is prepended, mirroring `sorted[--cursor] = node`). -/
structure TsState where
  visited : List String
  sorted : List String
deriving DecidableEq, Repr

/-- Sequentially run a visitor over a list of nodes, threading the search
state; the first thrown error aborts.  Instantiated with `visit` below,
this is both the child loop inside `visit` and, with an empty predecessor
path, the outer `while (i--)` loop of the library. -/
def goList (f : String → TsState → Except TsErr TsState) :
    List String → TsState → Except TsErr TsState
  | [], st => .ok st
  | c :: cs, st =>
    match f c st with
    | .error e => .error e
    | .ok st1 => goList f cs st1

/-- The `visit` function of the toposort library (v2.0.2): throws on a node
already on the current predecessor path (this check precedes the visited
check, so a self-edge is reported as a cyclic dependency), throws on a node
outside the node universe, returns unchanged state for an already-visited
node, and otherwise marks the node visited, visits its outgoing targets in
reverse insertion order with the node added to the predecessor path, and
prepends the node to the sorted output.  The fuel counts the depth of
nested `visit` calls, which is bounded by the number of distinct nodes. -/
def visit (edges : List TsEdge) (univ : List String) :
    Nat → String → List String → TsState → Except TsErr TsState
  | 0, _, _, _ => .error .fuelOut
  | fuel + 1, node, preds, st =>
    if node ∈ preds then .error (.cyclic node)
    else if node ∉ univ then .error .unknownNode
    else if node ∈ st.visited then .ok st
    else
      match goList (fun c s => visit edges univ fuel c (node :: preds) s)
          ((outgoingEdges edges node).reverse) ⟨node :: st.visited, st.sorted⟩ with
      | .error e => .error e
      | .ok st2 => .ok ⟨st2.visited, node :: st2.sorted⟩

/-- The fuel `toposort` runs its search with: one more than the number of
distinct nodes (the depth of nested `visit` calls is bounded by the number
of fresh nodes marked along the way). -/
def tsFuel (edges : List TsEdge) : Nat :=
  (uniqueNodes edges).length + 1

/-- The default entry point of the toposort npm library:
`toposort(edges) = toposortArray(uniqueNodes(edges), edges)`.  The outer
loop visits the nodes in reverse order, each with a fresh empty predecessor
set, and the sorted array (built right-to-left) is returned. -/
def toposort (edges : List TsEdge) : Except TsErr (List String) :=
  match goList (fun c s => visit edges (uniqueNodes edges) (tsFuel edges) c [] s)
      (uniqueNodes edges).reverse ⟨[], []⟩ with
  | .error e => .error e
  | .ok st => .ok st.sorted

/-- Last-match association lookup on the node list: the semantics of the
JavaScript `Map` built by `new Map(nodes.map(node => [node.id, node]))`,
where a later entry for the same key overwrites an earlier one. -/
def nodeMapGet (nodes : List Node) (id : String) : Option Node :=
  nodes.reverse.find? (fun n => n.id = id)

/-- The `topologicalSort` function of src/inngest/utils.ts.  With no
connections the nodes are returned in their original order.  Otherwise the
connections become edges, a self-edge is added for every node not involved
in any connection, and the toposort library is run; a library error whose
message contains `Cyclic` is rethrown as
`Error("Cycle detected in workflow connections")` and any other library
error is rethrown as-is (both are the plain `Error` class, not
`NonRetriableError`).  On success the sorted ids are deduplicated and
mapped back through the node map, dropping ids with no matching node. -/
def topologicalSort (nodes : List Node) (connections : List Connection) :
    Except ExecError (List Node) :=
  if connections.length = 0 then .ok nodes
  else
    let connEdges : List TsEdge :=
      connections.map (fun conn => (conn.fromNodeId, conn.toNodeId))
    let connectedIds : List String :=
      connections.foldl (fun s conn => jsSetAdd (jsSetAdd s conn.fromNodeId) conn.toNodeId) []
    let edges : List TsEdge :=
      connEdges ++
        (nodes.filter (fun n => n.id ∉ connectedIds)).map (fun n => (n.id, n.id))
    match toposort edges with
    | .error e =>
        if tsErrIsCyclic e then
          .error (.plain "Cycle detected in workflow connections")
        else
          .error (.plain (tsErrMessage e))
    | .ok sortedNodeIds =>
        .ok ((dedupFirst sortedNodeIds).filterMap (nodeMapGet nodes))

/-- The executor registry (executor-registry.ts): INITIAL and
MANUAL_TRIGGER map to the manual-trigger executor, HTTP_REQUEST to the
HTTP-request executor, GOOGLE_FORM_TRIGGER to the Google-Form-trigger
executor; STRIPE_TRIGGER has no registered executor, so `getExecutor`
throws a plain `Error` for it. -/
def executorRegistry : NodeType → Option (JsEnv → ExecInput → ExecResult)
  | .INITIAL => some manualTriggerExecutor
  | .MANUAL_TRIGGER => some manualTriggerExecutor
  | .HTTP_REQUEST => some httpRequestExecutor
  | .GOOGLE_FORM_TRIGGER => some googleFormTriggerExecutor
  | .STRIPE_TRIGGER => none

/-- The triggering event of a workflow run: `event.data.workflowId` (empty
string when absent, JavaScript falsiness) and `event.data.initialData`. -/
structure WorkflowEvent where
  workflowId : String
  initialData : Option Ctx

/-- The persistence oracle: `prisma.workflow.findUniqueOrThrow` keyed by
workflow id, returning the workflow nodes and connections. -/
def Db := String → Option (List Node × List Connection)

/-- The observable outcome of a workflow run: the returned value
`(workflowId, result-context)` or the thrown error, the node ids whose
executors were invoked in order, and the concatenated status-event and
HTTP-call traces. -/
structure RunResult where
  result : Except ExecError (String × Ctx)
  invoked : List String
  published : List StatusEvent
  httpCalls : List (String × HttpOptions)

/-- The node loop of `executeWorkflow`: for each node in sorted order, look
up its executor in the registry (throwing a plain `Error` when none is
registered), invoke it with the current context, and replace the context
with its return value; the loop stops at the first thrown error. -/
def runNodes (env : JsEnv) : List Node → Ctx →
    (Except ExecError Ctx × List String × List StatusEvent × List (String × HttpOptions))
  | [], ctx => (.ok ctx, [], [], [])
  | n :: rest, ctx =>
    match executorRegistry n.type with
    | none =>
        (.error (.plain ("No executor found for node type: " ++ nodeTypeName n.type)),
         [], [], [])
    | some ex =>
        let r := ex env ⟨n.data, n.id, ctx⟩
        match r.result with
        | .error e => (.error e, [n.id], r.published, r.httpCalls)
        | .ok ctx2 =>
            let rest2 := runNodes env rest ctx2
            (rest2.1, n.id :: rest2.2.1, r.published ++ rest2.2.2.1,
             r.httpCalls ++ rest2.2.2.2)

/-- The `executeWorkflow` Inngest function (src/inngest/functions.ts):
fails with a `NonRetriableError` when the event carries no workflow id;
loads the workflow (the `prepare-workflow` step, whose
`findUniqueOrThrow` throws a plain error when the workflow is missing) and
topologically sorts its nodes, aborting on a sort error before any node
executes; initializes the context to `event.data.initialData || \x7b\x7d`;
runs the node loop; and returns the workflow id together with the final
context. -/
def executeWorkflow (db : Db) (env : JsEnv) (event : WorkflowEvent) : RunResult :=
  if event.workflowId = "" then
    ⟨.error (.nonRetriable "No workflowId provided in event data"), [], [], []⟩
  else
    match db event.workflowId with
    | none =>
        ⟨.error (.plain "No Workflow found"), [], [], []⟩
    | some (nodes, connections) =>
        match topologicalSort nodes connections with
        | .error e => ⟨.error e, [], [], []⟩
        | .ok sortedNodes =>
            let context := event.initialData.getD []
            let r := runNodes env sortedNodes context
            ⟨r.1.map (fun ctx => (event.workflowId, ctx)), r.2.1, r.2.2.1, r.2.2.2⟩

/-- Concrete trigger node used in witnesses and counterexamples. -/
def exNodeA : Node := ⟨"a", .INITIAL, NodeData.empty⟩

/-- Concrete action node used in witnesses and counterexamples. -/
def exNodeB : Node := ⟨"b", .HTTP_REQUEST, NodeData.empty⟩

/-- Concrete disconnected node used in witnesses and counterexamples. -/
def exNodeD : Node := ⟨"d", .HTTP_REQUEST, NodeData.empty⟩

/-- C9: with an empty connection list, `topologicalSort` returns the node
list in its original order. -/
theorem C9_empty_connections_identity (nodes : List Node) :
    topologicalSort nodes [] = .ok nodes := by
  rfl

/-- C1: refuted by the code.  The claim asserts that for every acyclic
connection list the sorter returns a permutation of the nodes in which
disconnected nodes appear exactly once.  On the acyclic input
`nodes = [a, b, d]`, `connections = [a → b]` (node `d` disconnected), the
implementation instead throws `Cycle detected in workflow connections`:
the self-edge `d → d` it synthesizes for the disconnected node is reported
as a cyclic dependency by the toposort library, whose
predecessor-path check precedes its visited check.  This contradicts the
function's own documentation (its first example returns a disconnected
`node-d` in the output), so the code, not the claim, is wrong. -/
theorem C1_disconnected_node_triggers_cycle_error :
    topologicalSort [exNodeA, exNodeB, exNodeD] [⟨"a", "b"⟩] =
      .error (.plain "Cycle detected in workflow connections") := by
  rfl

/-- Reading back the key just written by a spread update yields the new
value. -/
theorem jsGet_setKey_self (ctx : Ctx) (k : String) (v : JValue) :
    jsGet (setKey ctx k v) k = some v := by
  induction ctx with
  | nil => simp [setKey, jsGet]
  | cons p rest ih =>
      obtain ⟨k1, v1⟩ := p
      by_cases h : k1 = k
      · subst h
        simp [setKey, jsGet]
      · simp [setKey, jsGet, h, ih]

/-- A spread update leaves every other key unchanged. -/
theorem jsGet_setKey_other (ctx : Ctx) (k k2 : String) (v : JValue)
    (h : k2 ≠ k) : jsGet (setKey ctx k v) k2 = jsGet ctx k2 := by
  have hk : ¬ k = k2 := fun hh => h hh.symm
  induction ctx with
  | nil => simp [setKey, jsGet, hk]
  | cons p rest ih =>
      obtain ⟨k1, v1⟩ := p
      by_cases hp : k1 = k
      · subst hp
        simp [setKey, jsGet, hk]
      · simp [setKey, jsGet, hp, ih]

/-- Oracle environment used in concrete witnesses: templates resolve to
their own source text, `JSON.parse` always rejects, and the HTTP client
answers 200 OK with plain-text body `hello`. -/
def trivEnv : JsEnv :=
  ⟨fun s _ => .ok s,
   fun _ => .error "Unexpected token",
   fun _ _ => .ok ⟨200, "OK", "text/plain", "hello"⟩⟩

/-- A successful `httpCall` merges an `httpResponse` payload into the
incoming context under the configured variable name. -/
theorem httpCall_ok_shape (env : JsEnv) (inp : ExecInput) (endpoint : String)
    (options : HttpOptions) (ctx2 : Ctx)
    (h : (httpCall env inp endpoint options).result = .ok ctx2) :
    ∃ status statusText data,
      ctx2 = setKey inp.context inp.data.variableName
        (mkHttpPayload status statusText data) := by
  unfold httpCall at h
  split at h
  · simp at h
  · split at h
    · split at h
      · simp at h
      · simp at h
        exact ⟨_, _, _, h.symm⟩
    · simp at h
      exact ⟨_, _, _, h.symm⟩

/-- A successful HTTP-request execution merges an `httpResponse` payload
into the incoming context under the configured variable name. -/
theorem httpRequestExecutor_ok_shape (env : JsEnv) (inp : ExecInput) (ctx2 : Ctx)
    (h : (httpRequestExecutor env inp).result = .ok ctx2) :
    ∃ status statusText data,
      ctx2 = setKey inp.context inp.data.variableName
        (mkHttpPayload status statusText data) := by
  unfold httpRequestExecutor at h
  split at h
  · simp at h
  · split at h
    · simp at h
    · split at h
      · simp at h
      · split at h
        · simp at h
        · split at h
          · simp at h
          · split at h
            · split at h
              · simp at h
              · split at h
                · simp at h
                · exact httpCall_ok_shape env inp _ _ ctx2 h
            · exact httpCall_ok_shape env inp _ _ ctx2 h

/-- The HTTP-request executor publishes no status events in any branch
(the source only carries TODO comments where publication would go). -/
theorem httpRequestExecutor_published_nil (env : JsEnv) (inp : ExecInput) :
    (httpRequestExecutor env inp).published = [] := by
  unfold httpRequestExecutor httpCall
  repeat' split
  all_goals rfl

/-- Concrete HTTP-request node input used in witnesses and
counterexamples: a GET of `https://x` storing into `r`, with incoming
context `id = 7`. -/
def exHttpInput : ExecInput := ⟨⟨"https://x", "r", "GET", ""⟩, "n1", [("id", .num 7)]⟩

/-- The context produced by running `exHttpInput` against `trivEnv`. -/
def exHttpOutCtx : Ctx :=
  [("id", .num 7),
   ("r", .obj [("httpResponse",
      .obj [("status", .num 200), ("statusText", .str "OK"),
            ("data", .str "hello")])])]

/-- C4: refuted by the code.  On a successful concrete execution the value
stored under `variableName` is an object whose only key is `httpResponse`;
it has no top-level `data` key, contrary to the claimed
`data:` / `httpResponse:` pair (the executor's own documented example
also shows only `httpResponse`). -/
theorem C4_counterexample :
    (httpRequestExecutor trivEnv exHttpInput).result = .ok exHttpOutCtx ∧
    jsGet [("httpResponse",
      (JValue.obj [("status", .num 200), ("statusText", .str "OK"),
            ("data", .str "hello")]))] "data" = none :=
  ⟨rfl, rfl⟩

/-- C4 as amended: every successful HTTP-request execution returns the
incoming context with `\x7b httpResponse: \x7b status, statusText, data \x7d \x7d`
(no top-level `data` sibling) stored under the key named by the node's
`variableName` configuration. -/
theorem C4_success_stores_httpResponse (env : JsEnv) (inp : ExecInput) (ctx2 : Ctx)
    (h : (httpRequestExecutor env inp).result = .ok ctx2) :
    ∃ status statusText data,
      jsGet ctx2 inp.data.variableName =
        some (mkHttpPayload status statusText data) := by
  obtain ⟨s, t, d, rfl⟩ := httpRequestExecutor_ok_shape env inp ctx2 h
  exact ⟨s, t, d, jsGet_setKey_self ..⟩

/-- Witness for C4 at the concrete input `exHttpInput` / `trivEnv`. -/
theorem C4_success_stores_httpResponse_witness :
    ∃ status statusText data,
      jsGet exHttpOutCtx "r" = some (mkHttpPayload status statusText data) :=
  C4_success_stores_httpResponse trivEnv exHttpInput exHttpOutCtx rfl

/-- C5: on every successful HTTP-request execution, every key other than
the configured `variableName` reads the same in the returned context as in
the incoming one. -/
theorem C5_success_preserves_other_keys (env : JsEnv) (inp : ExecInput)
    (ctx2 : Ctx) (k : String)
    (h : (httpRequestExecutor env inp).result = .ok ctx2)
    (hk : k ≠ inp.data.variableName) :
    jsGet ctx2 k = jsGet inp.context k := by
  obtain ⟨s, t, d, rfl⟩ := httpRequestExecutor_ok_shape env inp ctx2 h
  exact jsGet_setKey_other inp.context inp.data.variableName k (mkHttpPayload s t d) hk

/-- Witness for C5: the concrete run preserves `context.id = 7`. -/
theorem C5_success_preserves_other_keys_witness :
    jsGet exHttpOutCtx "id" = jsGet [(("id" : String), JValue.num 7)] "id" :=
  C5_success_preserves_other_keys trivEnv exHttpInput exHttpOutCtx "id" rfl (by decide)

/-- C6: the HTTP-request executor validates `endpoint`, then
`variableName`, then `method`; each missing field yields an immediate
`NonRetriableError` with an empty published trace and no HTTP call
issued. -/
theorem C6_validation_order (env : JsEnv) (inp : ExecInput) :
    (inp.data.endpoint = "" →
      httpRequestExecutor env inp =
        ⟨.error (.nonRetriable "HTTP Request node: No endpoint configured"), [], []⟩) ∧
    (inp.data.endpoint ≠ "" → inp.data.variableName = "" →
      httpRequestExecutor env inp =
        ⟨.error (.nonRetriable "HTTP Request node: No variable name configured"), [], []⟩) ∧
    (inp.data.endpoint ≠ "" → inp.data.variableName ≠ "" → inp.data.method = "" →
      httpRequestExecutor env inp =
        ⟨.error (.nonRetriable "HTTP Request node: No method configured"), [], []⟩) := by
  refine ⟨fun h1 => ?_, fun h1 h2 => ?_, fun h1 h2 h3 => ?_⟩ <;>
    simp [httpRequestExecutor, *]

/-- Witness for C6 at the empty configuration. -/
theorem C6_validation_order_witness :
    httpRequestExecutor trivEnv ⟨NodeData.empty, "n1", []⟩ =
      ⟨.error (.nonRetriable "HTTP Request node: No endpoint configured"), [], []⟩ :=
  (C6_validation_order trivEnv ⟨NodeData.empty, "n1", []⟩).1 rfl

/-- C7: for a node with method POST, PUT or PATCH whose body template
resolves to a string `JSON.parse` rejects, execution fails with the
non-retriable body-validation error and no HTTP call is issued. -/
theorem C7_invalid_body_fails_before_network (env : JsEnv) (inp : ExecInput)
    (endpoint resolved msg : String)
    (h1 : inp.data.endpoint ≠ "") (h2 : inp.data.variableName ≠ "")
    (h3 : inp.data.method ∈ ["POST", "PUT", "PATCH"])
    (he : env.tmpl inp.data.endpoint inp.context = .ok endpoint)
    (hne : endpoint ≠ "")
    (hb : env.tmpl (if inp.data.body = "" then "\x7b\x7d" else inp.data.body)
            inp.context = .ok resolved)
    (hj : env.parseJson resolved = .error msg) :
    httpRequestExecutor env inp =
      ⟨.error (.nonRetriable
          ("HTTP Request node: Invalid JSON in request body after template resolution. "
            ++ msg)), [], []⟩ := by
  have hm : inp.data.method ≠ "" := by
    intro h0
    rw [h0] at h3
    exact absurd h3 (by decide)
  have hup : jsToUpper inp.data.method ∈ ["POST", "PUT", "PATCH"] := by
    simp only [List.mem_cons, List.not_mem_nil, or_false] at h3
    rcases h3 with h | h | h <;> rw [h] <;> decide
  simp [httpRequestExecutor, h1, h2, hm, he, hne, hup, hb, hj]

/-- Concrete POST node with a body that resolves to non-JSON text. -/
def exPostInput : ExecInput := ⟨⟨"https://x", "r", "POST", "not json"⟩, "n1", []⟩

/-- Witness for C7 at the concrete input `exPostInput` / `trivEnv`. -/
theorem C7_invalid_body_fails_before_network_witness :
    httpRequestExecutor trivEnv exPostInput =
      ⟨.error (.nonRetriable
          ("HTTP Request node: Invalid JSON in request body after template resolution. "
            ++ "Unexpected token")), [], []⟩ :=
  C7_invalid_body_fails_before_network trivEnv exPostInput
    "https://x" "not json" "Unexpected token"
    (by decide) (by decide) (by decide) rfl (by decide) rfl rfl

/-- C8: refuted by the code.  A successful HTTP-request invocation whose
published event trace is empty: the trace neither starts with `loading`
nor ends with `success` or `error`, because the HTTP-request executor
publishes nothing (the source carries only TODO comments for it). -/
theorem C8_counterexample :
    (httpRequestExecutor trivEnv exHttpInput).published = [] ∧
    (httpRequestExecutor trivEnv exHttpInput).result = .ok exHttpOutCtx :=
  ⟨rfl, rfl⟩

/-- C8 as amended: the manual-trigger and Google-Form-trigger executors
publish exactly a `loading` status before work and a `success` status
after; the HTTP-request executor publishes no status events at all. -/
theorem C8_executor_status_traces (env : JsEnv) (inp : ExecInput) :
    (manualTriggerExecutor env inp).published =
      [⟨"manual-trigger", inp.nodeId, "loading"⟩,
       ⟨"manual-trigger", inp.nodeId, "success"⟩] ∧
    (googleFormTriggerExecutor env inp).published =
      [⟨"google-form-trigger", inp.nodeId, "loading"⟩,
       ⟨"google-form-trigger", inp.nodeId, "success"⟩] ∧
    (httpRequestExecutor env inp).published = [] :=
  ⟨rfl, rfl, httpRequestExecutor_published_nil env inp⟩

/-- One step of the orchestrator's node loop: look up the node's executor
in the registry (a missing entry is the thrown plain registry error) and
run it on the current context. -/
def execNode (env : JsEnv) (ctx : Ctx) (n : Node) : Except ExecError Ctx :=
  match executorRegistry n.type with
  | none => .error (.plain ("No executor found for node type: " ++ nodeTypeName n.type))
  | some ex => (ex env ⟨n.data, n.id, ctx⟩).result

/-- Bind on a successful `Except` computation applies the continuation. -/
theorem exceptBind_ok {ε α β : Type} (a : α) (f : α → Except ε β) :
    (Except.ok a >>= f) = f a := rfl

/-- Bind on a failed `Except` computation propagates the error. -/
theorem exceptBind_error {ε α β : Type} (e : ε) (f : α → Except ε β) :
    ((Except.error e : Except ε α) >>= f) = .error e := rfl

/-- The node loop computes the strictly sequential monadic left fold of
`execNode` over the node list: each node's executor receives the context
returned by the previous one, and the first error aborts the fold. -/
theorem runNodes_result_foldlM (env : JsEnv) (ns : List Node) (ctx : Ctx) :
    (runNodes env ns ctx).1 = ns.foldlM (execNode env) ctx := by
  induction ns generalizing ctx with
  | nil => rfl
  | cons n rest ih =>
      cases hreg : executorRegistry n.type with
      | none =>
          simp [runNodes, execNode, hreg, List.foldlM_cons, exceptBind_error]
      | some ex =>
          cases hres : (ex env ⟨n.data, n.id, ctx⟩).result with
          | error e =>
              simp [runNodes, execNode, hreg, hres, List.foldlM_cons, exceptBind_error]
          | ok ctx2 =>
              simp [runNodes, execNode, hreg, hres, List.foldlM_cons, exceptBind_ok,
                ih ctx2]

/-- C3: under a present workflow id, a found workflow and a successful
sort, `executeWorkflow` initializes the context to the event's initial
payload (the empty map when the event carries none) and its result is the
strictly sequential left fold of the node executors over the sorted node
list — each executor invoked with the previous executor's returned
context — tagged with the workflow id. -/
theorem C3_sequential_fold (db : Db) (env : JsEnv) (event : WorkflowEvent)
    (nodes : List Node) (connections : List Connection) (sortedNodes : List Node)
    (hwf : event.workflowId ≠ "")
    (hdb : db event.workflowId = some (nodes, connections))
    (hsort : topologicalSort nodes connections = .ok sortedNodes) :
    (executeWorkflow db env event).result =
      (sortedNodes.foldlM (execNode env) (event.initialData.getD [])).map
        (fun ctx => (event.workflowId, ctx)) := by
  unfold executeWorkflow
  rw [if_neg hwf, hdb]
  simp [hsort, runNodes_result_foldlM]

/-- Concrete persistence oracle with a single one-node workflow `wf`. -/
def exDb : Db := fun id => if id = "wf" then some ([exNodeA], []) else none

/-- Concrete triggering event for workflow `wf` with initial payload
`x = 1`. -/
def exEvent : WorkflowEvent := ⟨"wf", some [("x", .num 1)]⟩

/-- Witness for C3 at the one-node workflow `wf`. -/
theorem C3_sequential_fold_witness :
    (executeWorkflow exDb trivEnv exEvent).result =
      ([exNodeA].foldlM (execNode trivEnv) [(("x" : String), JValue.num 1)]).map
        (fun ctx => ("wf", ctx)) :=
  C3_sequential_fold exDb trivEnv exEvent [exNodeA] [] [exNodeA]
    (by decide) rfl rfl

/-- Membership after a JavaScript set add: the old elements plus the added
one. -/
theorem mem_jsSetAdd (l : List String) (x y : String) :
    y ∈ jsSetAdd l x ↔ y ∈ l ∨ y = x := by
  unfold jsSetAdd
  split
  · next hx =>
      constructor
      · exact fun h => Or.inl h
      · rintro (h | rfl)
        · exact h
        · exact hx
  · simp

/-- A JavaScript set add preserves freedom from duplicates. -/
theorem nodup_jsSetAdd (l : List String) (x : String) (h : l.Nodup) :
    (jsSetAdd l x).Nodup := by
  unfold jsSetAdd
  split
  · exact h
  · next hx =>
      simpa [List.nodup_append] using ⟨h, fun hmem => hx hmem⟩

/-- Membership in a fold of JavaScript set adds. -/
theorem mem_foldl_jsSetAdd (l : List String) :
    ∀ (acc : List String) (y : String),
      y ∈ l.foldl jsSetAdd acc ↔ y ∈ acc ∨ y ∈ l := by
  induction l with
  | nil => simp
  | cons a t ih =>
      intro acc y
      rw [List.foldl_cons, ih]
      rw [mem_jsSetAdd]
      simp [or_assoc, eq_comm]

/-- A fold of JavaScript set adds over a duplicate-free accumulator stays
duplicate-free. -/
theorem nodup_foldl_jsSetAdd (l : List String) :
    ∀ (acc : List String), acc.Nodup → (l.foldl jsSetAdd acc).Nodup := by
  induction l with
  | nil => exact fun acc h => h
  | cons a t ih =>
      intro acc h
      exact ih (jsSetAdd acc a) (nodup_jsSetAdd acc a h)

/-- The deduplicated list has the same members as the original. -/
theorem mem_dedupFirst (l : List String) (y : String) :
    y ∈ dedupFirst l ↔ y ∈ l := by
  unfold dedupFirst
  rw [mem_foldl_jsSetAdd]
  simp

/-- The deduplicated list is duplicate-free. -/
theorem nodup_dedupFirst (l : List String) : (dedupFirst l).Nodup :=
  nodup_foldl_jsSetAdd l [] List.nodup_nil

/-- A hit in the node map is a node of the list carrying the looked-up
id. -/
theorem nodeMapGet_some (nodes : List Node) (id : String) (n : Node)
    (h : nodeMapGet nodes id = some n) : n ∈ nodes ∧ n.id = id := by
  unfold nodeMapGet at h
  refine ⟨List.mem_reverse.mp (List.mem_of_find?_eq_some h), ?_⟩
  have := List.find?_some h
  exact of_decide_eq_true this

/-- Mapping a duplicate-free id list through the node map yields nodes
with pairwise distinct ids. -/
theorem nodup_filterMap_nodeMapGet (nodes : List Node) :
    ∀ (ids : List String), ids.Nodup →
      ((ids.filterMap (nodeMapGet nodes)).map Node.id).Nodup := by
  intro ids
  induction ids with
  | nil => simp
  | cons id rest ih =>
      intro hnd
      rw [List.nodup_cons] at hnd
      cases hmap : nodeMapGet nodes id with
      | none => simpa [List.filterMap_cons, hmap] using ih hnd.2
      | some n =>
          rw [List.filterMap_cons, hmap]
          rw [List.map_cons, List.nodup_cons]
          refine ⟨?_, ih hnd.2⟩
          intro hmem
          rw [List.mem_map] at hmem
          obtain ⟨m, hm, hid⟩ := hmem
          rw [List.mem_filterMap] at hm
          obtain ⟨a, ha, hma⟩ := hm
          have h1 := (nodeMapGet_some nodes a m hma).2
          have h2 := (nodeMapGet_some nodes id n hmap).2
          exact hnd.1 (by rw [← h1, hid, h2] at ha; exact ha)

/-- C10: whenever `topologicalSort` returns a result, every element of the
result is a node drawn from the input list and (given the database
invariant that node ids are unique) no node appears more than once; a
connection endpoint id with no matching node contributes nothing to the
output. -/
theorem C10_success_members_and_distinct (nodes : List Node)
    (connections : List Connection) (res : List Node)
    (hids : (nodes.map Node.id).Nodup)
    (h : topologicalSort nodes connections = .ok res) :
    (∀ x ∈ res, x ∈ nodes) ∧ (res.map Node.id).Nodup := by
  unfold topologicalSort at h
  split at h
  · rw [Except.ok.injEq] at h
    subst h
    exact ⟨fun x hx => hx, hids⟩
  · dsimp only at h
    split at h
    · split at h <;> simp at h
    · rw [Except.ok.injEq] at h
      subst h
      constructor
      · intro x hx
        rw [List.mem_filterMap] at hx
        obtain ⟨a, _, hma⟩ := hx
        exact (nodeMapGet_some nodes a x hma).1
      · exact nodup_filterMap_nodeMapGet nodes _ (nodup_dedupFirst _)

/-- Witness for C10: a connection to the unknown node id `x` is silently
dropped, and the result lists each node once. -/
theorem C10_success_members_and_distinct_witness :
    (∀ x ∈ [exNodeA, exNodeB], x ∈ [exNodeA, exNodeB]) ∧
    (([exNodeA, exNodeB].map Node.id).Nodup) :=
  C10_success_members_and_distinct [exNodeA, exNodeB] [⟨"a", "b"⟩, ⟨"b", "x"⟩]
    [exNodeA, exNodeB] (by decide) rfl

/-- C2: refuted in its error-classification part.  On the two-node true
cycle `a → b, b → a` the sorter does fail with the cycle-detected message,
but the thrown error is the plain `Error` class, not Inngest's
`NonRetriableError` (the claim calls it non-retriable; the code reserves
`NonRetriableError` for other validation failures and throws
`new Error(...)` here). -/
theorem C2_counterexample :
    topologicalSort [exNodeA, exNodeB] [⟨"a", "b"⟩, ⟨"b", "a"⟩] =
      .error (.plain "Cycle detected in workflow connections") ∧
    ∀ msg, (ExecError.plain "Cycle detected in workflow connections") ≠
      ExecError.nonRetriable msg :=
  ⟨rfl, fun _ h => ExecError.noConfusion h⟩

/-- The number of universe nodes not yet visited: the measure showing the
search's fuel suffices. -/
def countUnvisited (univ visited : List String) : Nat :=
  (univ.filter (fun n => decide (n ∉ visited))).length

/-- At most every universe node is unvisited. -/
theorem countUnvisited_le (univ visited : List String) :
    countUnvisited univ visited ≤ univ.length :=
  List.length_filter_le _ _

/-- With nothing visited, every universe node is unvisited. -/
theorem countUnvisited_nil (univ : List String) :
    countUnvisited univ [] = univ.length := by
  unfold countUnvisited
  rw [List.filter_eq_self.mpr]
  intro a _
  simp

/-- Growing the visited set cannot increase the number of unvisited
nodes. -/
theorem countUnvisited_anti (univ : List String) (v1 v2 : List String)
    (h : v1 ⊆ v2) : countUnvisited univ v2 ≤ countUnvisited univ v1 := by
  induction univ with
  | nil => exact Nat.le_refl 0
  | cons x rest ih =>
      unfold countUnvisited at ih ⊢
      by_cases h2 : x ∈ v2
      · have h1b : ¬ (decide (x ∉ v2) = true) := by simpa using h2
        rw [List.filter_cons]
        rw [if_neg h1b]
        by_cases h1 : x ∈ v1
        · have h1c : ¬ (decide (x ∉ v1) = true) := by simpa using h1
          rw [List.filter_cons, if_neg h1c]
          exact ih
        · have h1c : decide (x ∉ v1) = true := by simpa using h1
          rw [List.filter_cons, if_pos h1c, List.length_cons]
          exact Nat.le_succ_of_le ih
      · have h1 : x ∉ v1 := fun hx => h2 (h hx)
        have hb2 : decide (x ∉ v2) = true := by simpa using h2
        have hb1 : decide (x ∉ v1) = true := by simpa using h1
        rw [List.filter_cons, if_pos hb2, List.filter_cons, if_pos hb1]
        rw [List.length_cons, List.length_cons]
        exact Nat.succ_le_succ ih

/-- Visiting a fresh universe node strictly decreases the number of
unvisited nodes. -/
theorem countUnvisited_lt (univ visited : List String) (node : String)
    (hu : node ∈ univ) (hv : node ∉ visited) :
    countUnvisited univ (node :: visited) < countUnvisited univ visited := by
  induction univ with
  | nil => cases hu
  | cons x rest ih =>
      unfold countUnvisited at ih ⊢
      by_cases hx : x = node
      · subst hx
        have hb1 : ¬ (decide (x ∉ x :: visited) = true) := by simp
        have hb2 : decide (x ∉ visited) = true := by simpa using hv
        rw [List.filter_cons, if_neg hb1, List.filter_cons, if_pos hb2,
          List.length_cons]
        have hstep : countUnvisited rest (x :: visited) ≤ countUnvisited rest visited :=
          countUnvisited_anti rest visited (x :: visited)
            (fun a ha => List.mem_cons_of_mem x ha)
        unfold countUnvisited at hstep
        exact Nat.lt_succ_of_le hstep
      · have hu2 : node ∈ rest := by
          cases hu with
          | head => exact absurd rfl hx
          | tail _ h => exact h
        have hmemiff : (x ∉ node :: visited) ↔ (x ∉ visited) := by
          constructor
          · intro h hmem
            exact h (List.mem_cons_of_mem node hmem)
          · intro h hmem
            cases hmem with
            | head => exact hx rfl
            | tail _ hmem2 => exact h hmem2
        by_cases hxv : x ∈ visited
        · have hb1 : ¬ (decide (x ∉ node :: visited) = true) := by
            rw [decide_eq_true_eq]
            exact not_not_intro (List.mem_cons_of_mem node hxv)
          have hb2 : ¬ (decide (x ∉ visited) = true) := by
            rw [decide_eq_true_eq]
            exact not_not_intro hxv
          rw [List.filter_cons, if_neg hb1, List.filter_cons, if_neg hb2]
          exact ih hu2
        · have hb1 : decide (x ∉ node :: visited) = true := by
            rw [decide_eq_true_eq]
            exact hmemiff.mpr hxv
          have hb2 : decide (x ∉ visited) = true := by simpa using hxv
          rw [List.filter_cons, if_pos hb1, List.filter_cons, if_pos hb2,
            List.length_cons, List.length_cons]
          exact Nat.succ_lt_succ (ih hu2)


/-- A fold of visits through a step function that only grows the visited
set itself only grows the visited set. -/
theorem goList_ok_visited_mono (f : String → TsState → Except TsErr TsState)
    (hf : ∀ c s s', f c s = .ok s' → s.visited ⊆ s'.visited) :
    ∀ (cs : List String) (st st' : TsState),
      goList f cs st = .ok st' → st.visited ⊆ st'.visited := by
  intro cs
  induction cs with
  | nil =>
      intro st st' h
      rw [goList, Except.ok.injEq] at h
      subst h
      exact fun a ha => ha
  | cons c rest ih =>
      intro st st' h
      rw [goList] at h
      split at h
      · simp at h
      · next st1 hc =>
          exact fun a ha => ih st1 st' h (hf c st st1 hc ha)

/-- A successful `visit` only grows the visited set. -/
theorem visit_ok_visited_mono (edges : List TsEdge) (univ : List String) :
    ∀ (fuel : Nat) (node : String) (preds : List String) (st st' : TsState),
      visit edges univ fuel node preds st = .ok st' →
      st.visited ⊆ st'.visited := by
  intro fuel
  induction fuel with
  | zero =>
      intro node preds st st' h
      simp [visit] at h
  | succ fuel ih =>
      intro node preds st st' h
      unfold visit at h
      split at h
      · simp at h
      · split at h
        · simp at h
        · split at h
          · rw [Except.ok.injEq] at h
            subst h
            exact fun a ha => ha
          · split at h
            · simp at h
            · next st2 hgo =>
                rw [Except.ok.injEq] at h
                subst h
                intro a ha
                exact goList_ok_visited_mono _
                  (fun c s s' hcs => ih c (node :: preds) s s' hcs)
                  _ _ st2 hgo (List.mem_cons_of_mem node ha)

/-- Every target of an outgoing edge is an edge endpoint. -/
theorem outgoingEdges_mem (edges : List TsEdge) (n c : String) :
    c ∈ outgoingEdges edges n ↔ (n, c) ∈ edges := by
  unfold outgoingEdges
  rw [mem_dedupFirst, List.mem_filterMap]
  constructor
  · rintro ⟨e, he, hec⟩
    by_cases h1 : e.1 = n
    · rw [if_pos h1] at hec
      rw [Option.some.injEq] at hec
      have : e = (n, c) := Prod.ext h1 hec
      exact this ▸ he
    · rw [if_neg h1] at hec
      exact Option.noConfusion hec
  · intro h
    exact ⟨(n, c), h, by simp⟩

/-- Membership in the endpoint accumulation underlying `uniqueNodes`. -/
theorem mem_uniqueNodes (edges : List TsEdge) (x : String) :
    x ∈ uniqueNodes edges ↔ ∃ e ∈ edges, x = e.1 ∨ x = e.2 := by
  unfold uniqueNodes
  rw [mem_dedupFirst]
  induction edges with
  | nil => simp
  | cons e rest ih =>
      rw [List.foldr_cons]
      constructor
      · intro h
        cases h with
        | head => exact ⟨e, List.mem_cons_self e rest, Or.inl rfl⟩
        | tail _ h2 =>
            cases h2 with
            | head => exact ⟨e, List.mem_cons_self e rest, Or.inr rfl⟩
            | tail _ h3 =>
                obtain ⟨e2, he2, hx⟩ := ih.mp h3
                exact ⟨e2, List.mem_cons_of_mem e he2, hx⟩
      · rintro ⟨e2, he2, hx⟩
        cases he2 with
        | head =>
            cases hx with
            | inl h => exact h ▸ List.mem_cons_self _ _
            | inr h => exact h ▸ List.mem_cons_of_mem _ (List.mem_cons_self _ _)
        | tail _ h2 =>
            exact List.mem_cons_of_mem _ (List.mem_cons_of_mem _
              (ih.mpr ⟨e2, h2, hx⟩))

/-- Left endpoints of edges are universe nodes. -/
theorem uniqueNodes_left (edges : List TsEdge) (u v : String)
    (h : (u, v) ∈ edges) : u ∈ uniqueNodes edges :=
  (mem_uniqueNodes edges u).mpr ⟨(u, v), h, Or.inl rfl⟩

/-- Right endpoints of edges are universe nodes. -/
theorem uniqueNodes_right (edges : List TsEdge) (u v : String)
    (h : (u, v) ∈ edges) : v ∈ uniqueNodes edges :=
  (mem_uniqueNodes edges v).mpr ⟨(u, v), h, Or.inr rfl⟩

/-- A fold of error-classified visits only fails with cyclic errors, as
long as the fuel bound covers the unvisited count throughout. -/
theorem goList_error_cyclic (univ : List String)
    (f : String → TsState → Except TsErr TsState) (bound : Nat)
    (hmono : ∀ c s s', f c s = .ok s' → s.visited ⊆ s'.visited)
    (herr : ∀ c s e, c ∈ univ → countUnvisited univ s.visited < bound →
      f c s = .error e → ∃ m, e = .cyclic m) :
    ∀ (cs : List String) (st : TsState) (e : TsErr),
      (∀ c ∈ cs, c ∈ univ) → countUnvisited univ st.visited < bound →
      goList f cs st = .error e → ∃ m, e = .cyclic m := by
  intro cs
  induction cs with
  | nil =>
      intro st e _ _ h
      rw [goList] at h
      exact Except.noConfusion h
  | cons c rest ih =>
      intro st e hcs hcnt h
      rw [goList] at h
      split at h
      · next e0 hc =>
          rw [Except.error.injEq] at h
          subst h
          exact herr c st e0 (hcs c (List.mem_cons_self c rest)) hcnt hc
      · next st1 hc =>
          refine ih st1 e (fun d hd => hcs d (List.mem_cons_of_mem c hd)) ?_ h
          exact Nat.lt_of_le_of_lt
            (countUnvisited_anti univ st.visited st1.visited (hmono c st st1 hc)) hcnt

/-- With the universe closed under outgoing edges and enough fuel, a
failing `visit` fails with a cyclic-dependency error. -/
theorem visit_error_cyclic (edges : List TsEdge) (univ : List String)
    (hcl : ∀ n c, c ∈ outgoingEdges edges n → c ∈ univ) :
    ∀ (fuel : Nat) (node : String) (preds : List String) (st : TsState) (e : TsErr),
      node ∈ univ → countUnvisited univ st.visited < fuel →
      visit edges univ fuel node preds st = .error e → ∃ m, e = .cyclic m := by
  intro fuel
  induction fuel with
  | zero =>
      intro node preds st e _ hcnt _
      exact absurd hcnt (Nat.not_lt_zero _)
  | succ fuel ih =>
      intro node preds st e hu hcnt h
      unfold visit at h
      by_cases hp : node ∈ preds
      · rw [if_pos hp, Except.error.injEq] at h
        exact ⟨node, h.symm⟩
      · rw [if_neg hp, if_neg (not_not_intro hu)] at h
        by_cases hv : node ∈ st.visited
        · rw [if_pos hv] at h
          exact Except.noConfusion h
        · rw [if_neg hv] at h
          cases hgo : goList (fun c s => visit edges univ fuel c (node :: preds) s)
              ((outgoingEdges edges node).reverse) ⟨node :: st.visited, st.sorted⟩ with
          | error e0 =>
              rw [hgo, Except.error.injEq] at h
              subst h
              refine goList_error_cyclic univ _ fuel
                (fun c s s' hcs => visit_ok_visited_mono edges univ fuel c
                  (node :: preds) s s' hcs)
                (fun c s e2 hc hcnt2 hcs => ih c (node :: preds) s e2 hc hcnt2 hcs)
                ((outgoingEdges edges node).reverse) _ e0
                (fun c hcmem => hcl node c (List.mem_reverse.mp hcmem)) ?_ hgo
              exact Nat.lt_of_lt_of_le
                (countUnvisited_lt univ st.visited node hu hv)
                (Nat.lt_succ_iff.mp hcnt)
          | ok st2 =>
              rw [hgo] at h
              exact Except.noConfusion h

/-- Node `v` occurs strictly after node `u` in the list: the list splits at
an occurrence of `u` whose tail contains `v`. -/
def suffAfter (l : List String) (u v : String) : Prop :=
  ∃ l1 l2, l = l1 ++ u :: l2 ∧ v ∈ l2

/-- A list is ordered for an edge list when the target of every edge whose
source occurs in the list occurs strictly after that source. -/
def listOrdered (edges : List TsEdge) (l : List String) : Prop :=
  ∀ u v, (u, v) ∈ edges → u ∈ l → suffAfter l u v

/-- Strict precedence is preserved by prepending an element. -/
theorem suffAfter_cons (l : List String) (x u v : String)
    (h : suffAfter l u v) : suffAfter (x :: l) u v := by
  obtain ⟨l1, l2, heq, hv⟩ := h
  exact ⟨x :: l1, l2, by rw [heq, List.cons_append], hv⟩

/-- The second node of a strict precedence is in the list. -/
theorem suffAfter_mem_right (l : List String) (u v : String)
    (h : suffAfter l u v) : v ∈ l := by
  obtain ⟨l1, l2, heq, hv⟩ := h
  rw [heq]
  exact List.mem_append_right l1 (List.mem_cons_of_mem u hv)

/-- The invariant of the toposort search relative to the current
predecessor path: finished (sorted) nodes are visited, gray nodes
(visited but unfinished) lie on the predecessor path, the finished output
is ordered for the edge list, and the finished output is duplicate
free. -/
def TsInv (edges : List TsEdge) (preds : List String) (st : TsState) : Prop :=
  st.sorted ⊆ st.visited ∧
  (∀ n, n ∈ st.visited → n ∉ st.sorted → n ∈ preds) ∧
  listOrdered edges st.sorted ∧
  st.sorted.Nodup

/-- What one successful search step guarantees relative to its starting
state: the visited set grows, the sorted output grows only by prepending
nodes that were unvisited before, and every node that is newly visited is
also newly finished. -/
def VisitPost (st st' : TsState) : Prop :=
  st.visited ⊆ st'.visited ∧
  (∃ new, st'.sorted = new ++ st.sorted ∧ ∀ x ∈ new, x ∉ st.visited) ∧
  (∀ n, n ∈ st'.visited → n ∉ st'.sorted → (n ∈ st.visited ∧ n ∉ st.sorted))

/-- The step guarantee is reflexive. -/
theorem VisitPost.refl (st : TsState) : VisitPost st st :=
  ⟨fun _ ha => ha, ⟨[], rfl, fun x hx => absurd hx (List.not_mem_nil x)⟩,
   fun _ h1 h2 => ⟨h1, h2⟩⟩

/-- The step guarantee composes. -/
theorem VisitPost.trans {s1 s2 s3 : TsState}
    (h12 : VisitPost s1 s2) (h23 : VisitPost s2 s3) : VisitPost s1 s3 := by
  obtain ⟨hv12, ⟨n12, he12, hn12⟩, hp12⟩ := h12
  obtain ⟨hv23, ⟨n23, he23, hn23⟩, hp23⟩ := h23
  refine ⟨fun a ha => hv23 (hv12 ha), ⟨n23 ++ n12, ?_, ?_⟩, ?_⟩
  · rw [he23, he12, List.append_assoc]
  · intro x hx
    rcases List.mem_append.mp hx with hx2 | hx2
    · exact fun hmem => hn23 x hx2 (hv12 hmem)
    · exact hn12 x hx2
  · intro n h1 h2
    obtain ⟨h3, h4⟩ := hp23 n h1 h2
    exact hp12 n h3 h4

/-- Membership in the sorted output is preserved by later search steps. -/
theorem VisitPost.sorted_mono {s1 s2 : TsState} (h : VisitPost s1 s2)
    (x : String) (hx : x ∈ s1.sorted) : x ∈ s2.sorted := by
  obtain ⟨_, ⟨new, heq, _⟩, _⟩ := h
  rw [heq]
  exact List.mem_append_right new hx

/-- A fold of search steps that each preserve the invariant and finish
their node preserves the invariant and finishes every listed node. -/
theorem goList_ok_spec (edges : List TsEdge) (preds : List String)
    (f : String → TsState → Except TsErr TsState)
    (hf : ∀ c st st', TsInv edges preds st → f c st = .ok st' →
      TsInv edges preds st' ∧ VisitPost st st' ∧ c ∈ st'.sorted) :
    ∀ (cs : List String) (st st' : TsState), TsInv edges preds st →
      goList f cs st = .ok st' →
      TsInv edges preds st' ∧ VisitPost st st' ∧ ∀ c ∈ cs, c ∈ st'.sorted := by
  intro cs
  induction cs with
  | nil =>
      intro st st' hinv h
      rw [goList, Except.ok.injEq] at h
      subst h
      exact ⟨hinv, VisitPost.refl st, fun c hc => absurd hc (List.not_mem_nil c)⟩
  | cons c rest ih =>
      intro st st' hinv h
      rw [goList] at h
      split at h
      · exact Except.noConfusion h
      · next st1 hc =>
          obtain ⟨hinv1, hpost1, hcs⟩ := hf c st st1 hinv hc
          obtain ⟨hinv2, hpost2, hrest⟩ := ih st1 st' hinv1 h
          refine ⟨hinv2, hpost1.trans hpost2, ?_⟩
          intro d hd
          cases hd with
          | head => exact hpost2.sorted_mono c hcs
          | tail _ hd2 => exact hrest d hd2

/-- The heart of the soundness argument: a successful `visit` preserves
the search invariant, obeys the step guarantee, and finishes its node. -/
theorem visit_ok_spec (edges : List TsEdge) (univ : List String) :
    ∀ (fuel : Nat) (node : String) (preds : List String) (st st' : TsState),
      TsInv edges preds st →
      visit edges univ fuel node preds st = .ok st' →
      TsInv edges preds st' ∧ VisitPost st st' ∧ node ∈ st'.sorted := by
  intro fuel
  induction fuel with
  | zero =>
      intro node preds st st' _ h
      simp [visit] at h
  | succ fuel ih =>
      intro node preds st st' hinv h
      unfold visit at h
      by_cases hp : node ∈ preds
      · rw [if_pos hp] at h
        exact Except.noConfusion h
      · rw [if_neg hp] at h
        by_cases hnu : node ∉ univ
        · rw [if_pos hnu] at h
          exact Except.noConfusion h
        · rw [if_neg hnu] at h
          by_cases hv : node ∈ st.visited
          · rw [if_pos hv, Except.ok.injEq] at h
            subst h
            refine ⟨hinv, VisitPost.refl _, ?_⟩
            by_contra hns
            exact hp (hinv.2.1 node hv hns)
          · rw [if_neg hv] at h
            cases hgo : goList (fun c s => visit edges univ fuel c (node :: preds) s)
                ((outgoingEdges edges node).reverse) ⟨node :: st.visited, st.sorted⟩ with
            | error e0 =>
                rw [hgo] at h
                exact Except.noConfusion h
            | ok st2 =>
                rw [hgo, Except.ok.injEq] at h
                subst h
                have hinv1 : TsInv edges (node :: preds)
                    ⟨node :: st.visited, st.sorted⟩ := by
                  refine ⟨fun a ha => List.mem_cons_of_mem node (hinv.1 ha),
                    ?_, hinv.2.2.1, hinv.2.2.2⟩
                  intro n hn hns
                  cases hn with
                  | head => exact List.mem_cons_self node preds
                  | tail _ hn2 =>
                      exact List.mem_cons_of_mem node (hinv.2.1 n hn2 hns)
                obtain ⟨hinv2, hpost2, hchild⟩ :=
                  goList_ok_spec edges (node :: preds) _
                    (fun c s s' hi hcs => ih c (node :: preds) s s' hi hcs)
                    ((outgoingEdges edges node).reverse) _ st2 hinv1 hgo
                obtain ⟨hvmono2, ⟨new2, hseq2, hnew2⟩, hp2⟩ := hpost2
                have hnodesorted : node ∉ st.sorted := fun hns => hv (hinv.1 hns)
                have hnode_st2 : node ∉ st2.sorted := by
                  rw [hseq2]
                  intro hmem
                  rcases List.mem_append.mp hmem with hmem2 | hmem2
                  · exact hnew2 node hmem2 (List.mem_cons_self node st.visited)
                  · exact hnodesorted hmem2
                have hnodevis2 : node ∈ st2.visited :=
                  hvmono2 (List.mem_cons_self node st.visited)
                refine ⟨⟨?_, ?_, ?_, ?_⟩, ⟨?_, ⟨node :: new2, ?_, ?_⟩, ?_⟩, ?_⟩
                · intro a ha
                  cases ha with
                  | head => exact hnodevis2
                  | tail _ ha2 => exact hinv2.1 ha2
                · intro n hn hns
                  have hne : n ≠ node := fun heq => hns (heq ▸ List.mem_cons_self node st2.sorted)
                  have hns2 : n ∉ st2.sorted := fun hm => hns (List.mem_cons_of_mem node hm)
                  obtain ⟨hn1, hns1⟩ := hp2 n hn hns2
                  have hnst : n ∈ st.visited := by
                    cases hn1 with
                    | head => exact absurd rfl hne
                    | tail _ hn3 => exact hn3
                  exact hinv.2.1 n hnst hns1
                · intro u v huv hu
                  cases hu with
                  | head =>
                      have hvout : v ∈ outgoingEdges edges node :=
                        (outgoingEdges_mem edges node v).mpr huv
                      have hvrev : v ∈ (outgoingEdges edges node).reverse :=
                        List.mem_reverse.mpr hvout
                      have hvs : v ∈ st2.sorted := hchild v hvrev
                      exact ⟨[], st2.sorted, rfl, hvs⟩
                  | tail _ hu2 =>
                      exact suffAfter_cons st2.sorted node u v
                        (hinv2.2.2.1 u v huv hu2)
                · exact List.nodup_cons.mpr ⟨hnode_st2, hinv2.2.2.2⟩
                · intro a ha
                  exact hvmono2 (List.mem_cons_of_mem node ha)
                · rw [hseq2, List.cons_append]
                · intro x hx
                  cases hx with
                  | head => exact hv
                  | tail _ hx2 =>
                      exact fun hmem =>
                        hnew2 x hx2 (List.mem_cons_of_mem node hmem)
                · intro n hn hns
                  have hne : n ≠ node := fun heq => hns (heq ▸ List.mem_cons_self node st2.sorted)
                  have hns2 : n ∉ st2.sorted := fun hm => hns (List.mem_cons_of_mem node hm)
                  obtain ⟨hn1, hns1⟩ := hp2 n hn hns2
                  have hnst : n ∈ st.visited := by
                    cases hn1 with
                    | head => exact absurd rfl hne
                    | tail _ hn3 => exact hn3
                  exact ⟨hnst, hns1⟩
                · exact List.mem_cons_self node st2.sorted

/-- A successful run of the toposort library yields a duplicate-free list
that is ordered for the edge list and contains every edge endpoint. -/
theorem toposort_ok_spec (edges : List TsEdge) (ids : List String)
    (h : toposort edges = .ok ids) :
    listOrdered edges ids ∧ ids.Nodup ∧ ∀ n ∈ uniqueNodes edges, n ∈ ids := by
  unfold toposort at h
  cases hgo : goList (fun c s => visit edges (uniqueNodes edges) (tsFuel edges) c [] s)
      (uniqueNodes edges).reverse ⟨[], []⟩ with
  | error e =>
      rw [hgo] at h
      exact Except.noConfusion h
  | ok st =>
      rw [hgo, Except.ok.injEq] at h
      subst h
      have hinv0 : TsInv edges [] ⟨[], []⟩ :=
        ⟨fun a ha => ha,
         fun n hn _ => absurd hn (List.not_mem_nil n),
         fun u v _ hu => absurd hu (List.not_mem_nil u),
         List.nodup_nil⟩
      obtain ⟨hinv, _, hall⟩ :=
        goList_ok_spec edges [] _
          (fun c s s' hi hcs =>
            visit_ok_spec edges (uniqueNodes edges) (tsFuel edges) c [] s s' hi hcs)
          (uniqueNodes edges).reverse _ st hinv0 hgo
      exact ⟨hinv.2.2.1, hinv.2.2.2,
        fun n hn => hall n (List.mem_reverse.mpr hn)⟩

/-- Two splits of a duplicate-free list at the same element have the same
tail. -/
theorem nodup_split_tail_eq :
    ∀ (s1 : List String) (l s2 t1 t2 : List String) (v : String),
      l.Nodup → l = s1 ++ v :: t1 → l = s2 ++ v :: t2 → t1 = t2 := by
  intro s1
  induction s1 with
  | nil =>
      intro l s2 t1 t2 v hnd h1 h2
      rw [List.nil_append] at h1
      subst h1
      cases s2 with
      | nil =>
          rw [List.nil_append] at h2
          exact (List.cons.injEq .. ▸ h2).2.symm ▸ rfl
      | cons x s2t =>
          rw [List.cons_append] at h2
          have hx : x = v := ((List.cons.injEq ..).mp h2).1.symm
          have ht : t1 = s2t ++ v :: t2 := ((List.cons.injEq ..).mp h2).2
          rw [List.nodup_cons] at hnd
          exfalso
          apply hnd.1
          rw [ht, ← hx]
          exact List.mem_append_right s2t (hx ▸ List.mem_cons_self v t2)
  | cons x s1t ih =>
      intro l s2 t1 t2 v hnd h1 h2
      rw [List.cons_append] at h1
      subst h1
      cases s2 with
      | nil =>
          rw [List.nil_append] at h2
          have hx : x = v := ((List.cons.injEq ..).mp h2).1
          rw [List.nodup_cons] at hnd
          exfalso
          apply hnd.1
          rw [hx]
          exact List.mem_append_right s1t (List.mem_cons_self v t1)
      | cons y s2t =>
          rw [List.cons_append] at h2
          have hxy : x = y := ((List.cons.injEq ..).mp h2).1
          have hrest : s1t ++ v :: t1 = s2t ++ v :: t2 := ((List.cons.injEq ..).mp h2).2
          rw [List.nodup_cons] at hnd
          exact ih (s1t ++ v :: t1) s2t t1 t2 v hnd.2 rfl hrest

/-- On a duplicate-free list, strict precedence is transitive. -/
theorem suffAfter_trans (l : List String) (u v w : String) (hnd : l.Nodup)
    (h1 : suffAfter l u v) (h2 : suffAfter l v w) : suffAfter l u w := by
  obtain ⟨l1, l2, he1, hv⟩ := h1
  obtain ⟨l3, l4, he2, hw⟩ := h2
  obtain ⟨a, b, hab⟩ := List.append_of_mem hv
  have hsplit : l = (l1 ++ u :: a) ++ v :: b := by
    rw [he1, hab]
    simp [List.append_assoc]
  have htail : b = l4 := nodup_split_tail_eq (l1 ++ u :: a) l l3 b l4 v hnd hsplit he2
  refine ⟨l1, l2, he1, ?_⟩
  rw [hab]
  exact List.mem_append_right a (List.mem_cons_of_mem v (htail ▸ hw))

/-- On a duplicate-free list, strict precedence is irreflexive. -/
theorem suffAfter_irrefl (l : List String) (u : String) (hnd : l.Nodup)
    (h : suffAfter l u u) : False := by
  obtain ⟨l1, l2, heq, hu⟩ := h
  rw [heq, List.nodup_append] at hnd
  exact (List.nodup_cons.mp hnd.2.1).1 hu

/-- Reachability along the directed edges of an edge list. -/
def reaches (edges : List TsEdge) : String → String → Prop :=
  Relation.ReflTransGen (fun x y => (x, y) ∈ edges)

/-- A true cycle: two distinct nodes each reachable from the other (the
shape the specification distinguishes from a self-loop). -/
def hasTrueCycle (edges : List TsEdge) : Prop :=
  ∃ a b, a ≠ b ∧ reaches edges a b ∧ reaches edges b a

/-- In an ordered duplicate-free list, reachability from a listed node
implies equality or strict precedence. -/
theorem reaches_suffAfter (edges : List TsEdge) (l : List String)
    (hord : listOrdered edges l) (hnd : l.Nodup) (a b : String)
    (hr : reaches edges a b) (ha : a ∈ l) : a = b ∨ suffAfter l a b := by
  induction hr with
  | refl => exact Or.inl rfl
  | @tail c d hac hcd ih =>
      cases ih with
      | inl heq =>
          subst heq
          exact Or.inr (hord _ _ hcd ha)
      | inr hsuff =>
          have hcmem : c ∈ l := suffAfter_mem_right l a c hsuff
          exact Or.inr (suffAfter_trans l a c d hnd hsuff (hord c d hcd hcmem))

/-- A true cycle makes a successful toposort run impossible. -/
theorem toposort_cycle_no_ok (edges : List TsEdge)
    (hc : hasTrueCycle edges) (ids : List String) :
    toposort edges ≠ .ok ids := by
  intro h
  obtain ⟨hord, hnd, hall⟩ := toposort_ok_spec edges ids h
  obtain ⟨a, b, hab, hrab, hrba⟩ := hc
  obtain ⟨c, hac, _⟩ := (Relation.ReflTransGen.cases_head hrab).resolve_left hab
  have hauniv : a ∈ uniqueNodes edges := uniqueNodes_left edges a c hac
  have hamem : a ∈ ids := hall a hauniv
  have h1 : suffAfter ids a b :=
    (reaches_suffAfter edges ids hord hnd a b hrab hamem).resolve_left hab
  have hbmem : b ∈ ids := suffAfter_mem_right ids a b h1
  have h2 : suffAfter ids b a :=
    (reaches_suffAfter edges ids hord hnd b a hrba hbmem).resolve_left
      (fun heq => hab heq.symm)
  exact suffAfter_irrefl ids a hnd (suffAfter_trans ids a b a hnd h1 h2)

/-- A true cycle makes the toposort library fail with a cyclic-dependency
error. -/
theorem toposort_cycle_cyclic (edges : List TsEdge) (hc : hasTrueCycle edges) :
    ∃ m, toposort edges = .error (.cyclic m) := by
  cases h : toposort edges with
  | ok ids => exact absurd h (toposort_cycle_no_ok edges hc ids)
  | error e =>
      suffices hcyc : ∃ m, e = .cyclic m by
        obtain ⟨m, hm⟩ := hcyc
        exact ⟨m, by rw [hm]⟩
      unfold toposort at h
      cases hgo : goList (fun c s => visit edges (uniqueNodes edges) (tsFuel edges) c [] s)
          (uniqueNodes edges).reverse ⟨[], []⟩ with
      | ok st =>
          rw [hgo] at h
          exact Except.noConfusion h
      | error e0 =>
          rw [hgo, Except.error.injEq] at h
          subst h
          refine goList_error_cyclic (uniqueNodes edges) _ (tsFuel edges)
            (fun c s s' hcs =>
              visit_ok_visited_mono edges (uniqueNodes edges) (tsFuel edges) c [] s s' hcs)
            (fun c s e2 hcm hcnt hcs =>
              visit_error_cyclic edges (uniqueNodes edges)
                (fun n d hd => uniqueNodes_right edges n d
                  ((outgoingEdges_mem edges n d).mp hd))
                (tsFuel edges) c [] s e2 hcm hcnt hcs)
            (uniqueNodes edges).reverse _ e0
            (fun c hcm => List.mem_reverse.mp hcm) ?_ hgo
          rw [countUnvisited_nil]
          exact Nat.lt_succ_self _

/-- A true cycle survives appending further edges. -/
theorem hasTrueCycle_append_left (e1 e2 : List TsEdge)
    (h : hasTrueCycle e1) : hasTrueCycle (e1 ++ e2) := by
  obtain ⟨a, b, hab, h1, h2⟩ := h
  refine ⟨a, b, hab, ?_, ?_⟩
  · exact Relation.ReflTransGen.mono (fun x y hxy => List.mem_append_left e2 hxy) h1
  · exact Relation.ReflTransGen.mono (fun x y hxy => List.mem_append_left e2 hxy) h2

/-- A connection list whose edges contain a true cycle is nonempty. -/
theorem hasTrueCycle_nonempty (connections : List Connection)
    (hc : hasTrueCycle (connections.map (fun conn => (conn.fromNodeId, conn.toNodeId)))) :
    connections.length ≠ 0 := by
  obtain ⟨a, b, hab, hrab, _⟩ := hc
  obtain ⟨c, hac, _⟩ := (Relation.ReflTransGen.cases_head hrab).resolve_left hab
  intro h0
  rw [List.length_eq_zero] at h0
  subst h0
  simp at hac

/-- A true cycle in the connection edges makes `topologicalSort` fail with
the cycle-detected message, thrown as the plain `Error` class. -/
theorem topologicalSort_cycle_error (nodes : List Node) (connections : List Connection)
    (hc : hasTrueCycle (connections.map (fun conn => (conn.fromNodeId, conn.toNodeId)))) :
    topologicalSort nodes connections =
      .error (.plain "Cycle detected in workflow connections") := by
  unfold topologicalSort
  rw [if_neg (hasTrueCycle_nonempty connections hc)]
  dsimp only
  obtain ⟨m, hm⟩ := toposort_cycle_cyclic
    (connections.map (fun conn => (conn.fromNodeId, conn.toNodeId)) ++
      (nodes.filter (fun n => n.id ∉
        connections.foldl (fun s conn => jsSetAdd (jsSetAdd s conn.fromNodeId) conn.toNodeId) [])).map
        (fun n => (n.id, n.id)))
    (hasTrueCycle_append_left _ _ hc)
  rw [hm]
  simp [tsErrIsCyclic]

/-- C2 as amended: for a workflow whose connection edges contain a true
cycle (through two or more distinct nodes), the run fails with the
cycle-detected error — thrown as a plain `Error`, not the non-retriable
class the claim names — in the prepare step, and the orchestrator invokes
no node executor: no executor runs, nothing is published, no HTTP call is
made. -/
theorem C2_true_cycle_aborts_run (db : Db) (env : JsEnv) (event : WorkflowEvent)
    (nodes : List Node) (connections : List Connection)
    (hwf : event.workflowId ≠ "")
    (hdb : db event.workflowId = some (nodes, connections))
    (hc : hasTrueCycle (connections.map (fun conn => (conn.fromNodeId, conn.toNodeId)))) :
    (executeWorkflow db env event).result =
      .error (.plain "Cycle detected in workflow connections") ∧
    (executeWorkflow db env event).invoked = [] ∧
    (executeWorkflow db env event).published = [] ∧
    (executeWorkflow db env event).httpCalls = [] := by
  have hsort := topologicalSort_cycle_error nodes connections hc
  unfold executeWorkflow
  rw [if_neg hwf, hdb]
  simp [hsort]

/-- Concrete persistence oracle with a workflow `wfc` whose two nodes form
the true cycle `a → b, b → a`. -/
def exCycleDb : Db :=
  fun id => if id = "wfc" then some ([exNodeA, exNodeB], [⟨"a", "b"⟩, ⟨"b", "a"⟩]) else none

/-- Witness for C2 on the concrete cyclic workflow `wfc`. -/
theorem C2_true_cycle_aborts_run_witness :
    (executeWorkflow exCycleDb trivEnv ⟨"wfc", none⟩).result =
      .error (.plain "Cycle detected in workflow connections") ∧
    (executeWorkflow exCycleDb trivEnv ⟨"wfc", none⟩).invoked = [] ∧
    (executeWorkflow exCycleDb trivEnv ⟨"wfc", none⟩).published = [] ∧
    (executeWorkflow exCycleDb trivEnv ⟨"wfc", none⟩).httpCalls = [] :=
  C2_true_cycle_aborts_run exCycleDb trivEnv ⟨"wfc", none⟩
    [exNodeA, exNodeB] [⟨"a", "b"⟩, ⟨"b", "a"⟩]
    (by decide) rfl
    ⟨"a", "b", by decide,
     Relation.ReflTransGen.single (by decide),
     Relation.ReflTransGen.single (by decide)⟩
